import Mathlib

/-!
Verification of the in-memory queryset engine of `django-virtualqueryset`.

The development shallowly embeds the Python sources:

* `src/virtualqueryset/queryset/base.py` — `InMemoryQuerySet`
  (`filter`, `exclude`, `order_by`, `reverse`, `distinct`, `all`, `none`,
  `get`, `__iter__`);
* `src/virtualqueryset/queryset/cached.py` — `CachedQuerySet.__init__` and
  `CachedQuerySet._get_cached_or_fetch`;
* `src/virtualqueryset/queryset/api.py` — `APIQuerySet._fetch_data`;
* `src/virtualqueryset/models.py` — `VirtualModel` / `ReadOnlyVirtualModel`.

Attribute values of data objects are modelled by `PyVal` (the `None`, string
and integer values the lookups of the engine manipulate).  Python exceptions
are modelled by `Except`; Python's `list.sort` (stable) is modelled by
`List.mergeSort`, which is the stable sort of the Lean library.  Comparing an
`int` with a `str` (or anything with `None`) raises `TypeError` in Python;
in the comparison lookups (`gt`/`gte`/`lt`/`lte`) this is modelled exactly
with `Except`, while inside the sorting passes the Boolean comparator
returns `false` on such pairs and the sorting theorems carry an explicit
comparability hypothesis keeping those pairs out of scope.
-/

/-- A Python attribute value as used by the lookups: `None`, a `str`, or an
`int`. -/
inductive PyVal where
  | none
  | str (s : String)
  | int (n : Int)
deriving DecidableEq, Repr

/-- Python `==` on `PyVal`: values of different kinds are unequal (no
exception is raised). -/
def pyEq (a b : PyVal) : Bool := decide (a = b)

/-- Python `str()` of a `PyVal`. -/
def pyStr : PyVal → String
  | .none => "None"
  | .str s => s
  | .int n => toString n

/-- Python `str.lower()` (per-character lowering). -/
def lowerStr (s : String) : String := ⟨s.data.map Char.toLower⟩

/-- Lexicographic (code-point) `<=` on character lists, Python's string
order. -/
def charListLe : List Char → List Char → Bool
  | [], _ => true
  | _ :: _, [] => false
  | c :: cs, d :: ds =>
      if c.toNat < d.toNat then true
      else if d.toNat < c.toNat then false
      else charListLe cs ds

/-- Lexicographic (code-point) `<` on character lists. -/
def charListLt : List Char → List Char → Bool
  | [], [] => false
  | [], _ :: _ => true
  | _ :: _, [] => false
  | c :: cs, d :: ds =>
      if c.toNat < d.toNat then true
      else if d.toNat < c.toNat then false
      else charListLt cs ds

/-- Python `s.startswith(p)`. -/
def startsWithStr (s p : String) : Bool := List.isPrefixOf p.data s.data

/-- Python `s.endswith(p)`. -/
def endsWithStr (s p : String) : Bool := List.isSuffixOf p.data s.data

/-- Python `<` on `PyVal`; `Option.none` models the `TypeError` raised on a
mixed-kind comparison. -/
def pyLt : PyVal → PyVal → Option Bool
  | .int m, .int n => some (decide (m < n))
  | .str s, .str t => some (charListLt s.data t.data)
  | _, _ => Option.none

/-- Python `<=` on `PyVal`; `Option.none` models the `TypeError` raised on a
mixed-kind comparison. -/
def pyLe : PyVal → PyVal → Option Bool
  | .int m, .int n => some (decide (m ≤ n))
  | .str s, .str t => some (charListLe s.data t.data)
  | _, _ => Option.none

/-- `True` exactly when Python can order the two values (both `int` or both
`str`). -/
def comparable (a b : PyVal) : Bool :=
  match a, b with
  | .int _, .int _ => true
  | .str _, .str _ => true
  | _, _ => false

/-- Boolean version of Python `<=` used inside the sorting passes; `false`
stands in for the incomparable (`TypeError`) pairs, which the sorting
theorems exclude by hypothesis. -/
def pyLeB (a b : PyVal) : Bool :=
  match a, b with
  | .int m, .int n => decide (m ≤ n)
  | .str s, .str t => charListLe s.data t.data
  | _, _ => false

/-- Kind rank used only to totalise `pyLeB` inside proofs. -/
def kindRank : PyVal → Nat
  | .none => 0
  | .int _ => 1
  | .str _ => 2

/-- A totalisation of `pyLeB` (proof device only): agrees with `pyLeB` on
comparable pairs and orders the remaining pairs by kind. -/
def pyLeBT (a b : PyVal) : Bool :=
  match a, b with
  | .int m, .int n => decide (m ≤ n)
  | .str s, .str t => charListLe s.data t.data
  | .none, .none => true
  | _, _ => decide (kindRank a ≤ kindRank b)

theorem pyLeB_eq_pyLeBT (a b : PyVal) (h : comparable a b = true) :
    pyLeB a b = pyLeBT a b := by
  cases a <;> cases b <;> simp_all [comparable, pyLeB, pyLeBT]

theorem charListLe_total (a b : List Char) : charListLe a b || charListLe b a := by
  induction a generalizing b with
  | nil => simp [charListLe]
  | cons c cs ih =>
    cases b with
    | nil => simp [charListLe]
    | cons d ds =>
      simp only [charListLe]
      by_cases h1 : c.toNat < d.toNat
      · simp [h1]
      · by_cases h2 : d.toNat < c.toNat
        · simp [h1, h2]
        · simp only [h1, h2, if_false]
          exact ih ds

theorem charListLe_trans (a b c : List Char) (h1 : charListLe a b)
    (h2 : charListLe b c) : charListLe a c := by
  induction a generalizing b c with
  | nil => simp [charListLe]
  | cons x xs ih =>
    cases b with
    | nil => simp [charListLe] at h1
    | cons y ys =>
      cases c with
      | nil => simp [charListLe] at h2
      | cons z zs =>
        simp only [charListLe] at h1 h2 ⊢
        by_cases hxy : x.toNat < y.toNat <;> by_cases hyx : y.toNat < x.toNat <;>
          by_cases hyz : y.toNat < z.toNat <;> by_cases hzy : z.toNat < y.toNat <;>
          simp_all <;>
          first
            | omega
            | exact Or.inr ⟨by omega, ih ys zs h1 h2⟩

theorem pyLeBT_total (a b : PyVal) : pyLeBT a b || pyLeBT b a := by
  cases a <;> cases b <;> simp [pyLeBT, kindRank] <;>
    first
      | omega
      | exact Int.le_total _ _
      | (rename_i s t; simpa using charListLe_total s.data t.data)

theorem pyLeBT_trans (a b c : PyVal) (h1 : pyLeBT a b) (h2 : pyLeBT b c) :
    pyLeBT a c := by
  cases a <;> cases b <;> cases c <;>
    simp_all [pyLeBT, kindRank] <;>
    first
      | omega
      | exact charListLe_trans _ _ _ ‹_› ‹_›

/-- A data object: a Python object identity (`id()`) together with its
attribute dictionary. -/
structure Obj where
  oid : Nat
  attrs : List (String × PyVal)
deriving DecidableEq, Repr

/-- Python `getattr(obj, name, default)`. -/
def getattrD (o : Obj) (name : String) (default : PyVal) : PyVal :=
  (o.attrs.lookup name).getD default

/-- Python `getattr(obj, name)` with no default: `Option.none` models the
`AttributeError` raised when the attribute is missing. -/
def getattrE (o : Obj) (name : String) : Option PyVal :=
  o.attrs.lookup name

/-- Python `sub in s` on strings (substring containment). -/
def strIn (sub s : String) : Bool :=
  decide (List.IsInfix sub.data s.data)

/-- The slice of Django's `Query` object the engine uses: `query.order_by`
(the admin sets it; `InMemoryQuerySet.__iter__` and `order_by` read and
write it). -/
structure Query where
  order_by : List String
deriving DecidableEq, Repr

/-- `query.clone()`: an independent copy with the same contents. -/
def Query.clone (q : Query) : Query := q

/-- The state of an `InMemoryQuerySet` (`base.py`): its runtime class
(`self.__class__`, a subclass tag, since every subclass inherits these
methods), `self.model`, the stored list `self._result_cache`, and
`self.query`. -/
structure InMemoryQuerySet where
  cls : String
  model : Option String
  elems : List Obj
  query : Query
deriving DecidableEq, Repr

/-- A keyword argument `lookup=value` of `filter`/`exclude`, split the way
`filter` splits it: `bare` is the no-`"__"` form `field=value`, every other
constructor is `field__<lookup_type>=value` with `rsplit("__", 1)` already
applied. -/
inductive Lookup where
  | bare (field : String) (v : PyVal)
  | exact (field : String) (v : PyVal)
  | icontains (field : String) (v : String)
  | contains (field : String) (v : String)
  | isIn (field : String) (vs : List PyVal)
  | gt (field : String) (v : PyVal)
  | gte (field : String) (v : PyVal)
  | lt (field : String) (v : PyVal)
  | lte (field : String) (v : PyVal)
  | isnull (field : String) (v : Bool)
  | startswith (field : String) (v : String)
  | istartswith (field : String) (v : String)
  | endswith (field : String) (v : String)
  | iendswith (field : String) (v : String)
deriving DecidableEq, Repr

/-- A Python list comprehension `[x for x in l if p x]` whose predicate may
raise: the first raise aborts the whole comprehension. -/
def filterE {ε : Type} (p : α → Except ε Bool) : List α → Except ε (List α)
  | [] => .ok []
  | a :: l => do
      let b ← p a
      let r ← filterE p l
      if b then return a :: r else return r

/-- Turn the result of a Python ordering comparison into `Except`
(`Option.none` was a `TypeError`). -/
def cmpE (r : Option Bool) : Except String Bool :=
  match r with
  | some b => .ok b
  | Option.none => .error "TypeError: unsupported comparison"

namespace InMemoryQuerySet

/-- The `_value` helper of `filter`: `getattr(obj, attr, "")`. -/
def attr_value (o : Obj) (attr : String) : PyVal := getattrD o attr (.str "")

/-- One iteration of the `for lookup, value in kwargs.items()` loop of
`InMemoryQuerySet.filter`: the branch for this lookup type applied to the
running list `rslt`.  Only the four ordering lookups can raise (mixed-kind
comparison). -/
def applyLookup (lk : Lookup) (rslt : List Obj) : Except String (List Obj) :=
  match lk with
  | .bare f v => .ok (rslt.filter fun o => pyEq (getattrD o f .none) v)
  | .exact f v => .ok (rslt.filter fun o => pyEq (attr_value o f) v)
  | .icontains f v =>
      .ok (rslt.filter fun o => strIn (lowerStr v) (lowerStr (pyStr (attr_value o f))))
  | .contains f v => .ok (rslt.filter fun o => strIn v (pyStr (attr_value o f)))
  | .isIn f vs => .ok (rslt.filter fun o => vs.contains (attr_value o f))
  | .gt f v => filterE (fun o => cmpE (pyLt v (attr_value o f))) rslt
  | .gte f v => filterE (fun o => cmpE (pyLe v (attr_value o f))) rslt
  | .lt f v => filterE (fun o => cmpE (pyLt (attr_value o f) v)) rslt
  | .lte f v => filterE (fun o => cmpE (pyLe (attr_value o f) v)) rslt
  | .isnull f v =>
      if v then
        .ok (rslt.filter fun o =>
          pyEq (attr_value o f) .none || pyEq (attr_value o f) (.str ""))
      else
        .ok (rslt.filter fun o =>
          !(pyEq (attr_value o f) .none || pyEq (attr_value o f) (.str "")))
  | .startswith f v => .ok (rslt.filter fun o => startsWithStr (pyStr (attr_value o f)) v)
  | .istartswith f v =>
      .ok (rslt.filter fun o =>
        startsWithStr (lowerStr (pyStr (attr_value o f))) (lowerStr v))
  | .endswith f v => .ok (rslt.filter fun o => endsWithStr (pyStr (attr_value o f)) v)
  | .iendswith f v =>
      .ok (rslt.filter fun o =>
        endsWithStr (lowerStr (pyStr (attr_value o f))) (lowerStr v))

/-- `InMemoryQuerySet.filter(**kwargs)`: fold the lookup branches over the
stored list and build a new queryset of the same class with the filtered
list and a cloned query. -/
def filter (qs : InMemoryQuerySet) (kwargs : List Lookup) :
    Except String InMemoryQuerySet := do
  let rslt ← kwargs.foldlM (fun r lk => applyLookup lk r) qs.elems
  return { qs with elems := rslt, query := qs.query.clone }

/-- `InMemoryQuerySet.exclude(**kwargs)`: filter with the same lookups, then
keep the stored elements whose `id()` is not among the filtered ones. -/
def exclude (qs : InMemoryQuerySet) (kwargs : List Lookup) :
    Except String InMemoryQuerySet := do
  let filtered ← filter qs kwargs
  let excluded_ids := filtered.elems.map Obj.oid
  return { qs with
            elems := qs.elems.filter fun o => !(excluded_ids.contains o.oid),
            query := qs.query.clone }

/-- The `get_field_value` closure of `order_by` and `__iter__`:
`getattr(obj, field_name, None)`, with `None` read as `""` and strings
lowercased. -/
def get_field_value (field_name : String) (obj : Obj) : PyVal :=
  match getattrD obj field_name .none with
  | .none => .str ""
  | .str s => .str (lowerStr s)
  | .int n => .int n

/-- `field.startswith("-")`: this sorting key is descending. -/
def fieldReverse (field : String) : Bool := startsWithStr field "-"

/-- `field[1:] if reverse else field`. -/
def fieldName (field : String) : String :=
  if startsWithStr field "-" then ⟨field.data.drop 1⟩ else field

/-- The comparator of one `rslt.sort(key=get_field_value, reverse=reverse)`
pass: stable ascending by the key, or stable descending (comparisons
reversed, ties keeping list order) when the field has a `-` prefix. -/
def passLe (field : String) (a b : Obj) : Bool :=
  if fieldReverse field then
    pyLeB (get_field_value (fieldName field) b) (get_field_value (fieldName field) a)
  else
    pyLeB (get_field_value (fieldName field) a) (get_field_value (fieldName field) b)

/-- The `for field in reversed(fields): rslt.sort(...)` loop shared by
`order_by` and `__iter__`: one stable sorting pass per field, last field
first. -/
def sortByFields (fields : List String) (l : List Obj) : List Obj :=
  fields.foldr (fun f r => r.mergeSort (passLe f)) l

/-- `InMemoryQuerySet.order_by(*fields)`: sort a copy of the stored list and
record `fields` in the cloned query's `order_by`. -/
def order_by (qs : InMemoryQuerySet) (fields : List String) : InMemoryQuerySet :=
  { qs with elems := sortByFields fields qs.elems,
            query := { qs.query.clone with order_by := fields } }

/-- `InMemoryQuerySet.reverse()`. -/
def reverse (qs : InMemoryQuerySet) : InMemoryQuerySet :=
  { qs with elems := qs.elems.reverse, query := qs.query.clone }

/-- The `seen`-set loop of `distinct`: keep the first occurrence of each
object `id()`. -/
def distinctLoop (seen : List Nat) : List Obj → List Obj
  | [] => []
  | o :: rest =>
      if seen.contains o.oid then distinctLoop seen rest
      else o :: distinctLoop (o.oid :: seen) rest

/-- `InMemoryQuerySet.distinct()`. -/
def distinct (qs : InMemoryQuerySet) : InMemoryQuerySet :=
  { qs with elems := distinctLoop [] qs.elems, query := qs.query.clone }

/-- `InMemoryQuerySet.all()` = `self._clone()`: same class, copied list,
cloned query. -/
def all (qs : InMemoryQuerySet) : InMemoryQuerySet :=
  { qs with elems := qs.elems, query := qs.query.clone }

/-- `InMemoryQuerySet.none()`. -/
def none (qs : InMemoryQuerySet) : InMemoryQuerySet :=
  { qs with elems := [], query := qs.query.clone }

/-- `InMemoryQuerySet.count()`. -/
def count (qs : InMemoryQuerySet) : Nat := qs.elems.length

/-- The exceptions `get` can raise. -/
inductive GetErr where
  | attributeError
  | objectDoesNotExist
  | multipleObjectsReturned
deriving DecidableEq, Repr

/-- `InMemoryQuerySet.get(**kwargs)`: successive `[obj for obj in rslt if
getattr(obj, attr) == value]` comprehensions (`getattr` with no default, so
a missing attribute raises), then the one/zero/many case split. -/
def get (qs : InMemoryQuerySet) (kwargs : List (String × PyVal)) :
    Except GetErr Obj := do
  let rslt ← kwargs.foldlM
    (fun r av => filterE (fun o =>
      match getattrE o av.1 with
      | some x => .ok (pyEq x av.2)
      | Option.none => .error GetErr.attributeError) r)
    qs.elems
  match rslt with
  | [r] => return r
  | [] => .error .objectDoesNotExist
  | _ => .error .multipleObjectsReturned

/-- `InMemoryQuerySet.__iter__`: when `self.query.order_by` is non-empty
(truthy) run the same per-field stable sorting passes over the stored list,
otherwise yield the stored list as is. -/
def iter (qs : InMemoryQuerySet) : List Obj :=
  match qs.query.order_by with
  | [] => qs.elems
  | ordering => sortByFields ordering qs.elems

end InMemoryQuerySet

/-! ### Stable multi-pass sorting

`order_by` (and `__iter__`) runs one stable sorting pass per field, last
field first.  The lemmas below show this equals a single stable sort under
the lexicographic combination of the per-pass comparators. -/

section SortTheory

variable {α : Type} {le₁ le₂ : α → α → Bool}

/-- Lexicographic combination of two Boolean preorders: strict `le₁` first,
`le₂` breaking `le₁`-ties. -/
def lexComb (le₁ le₂ : α → α → Bool) (a b : α) : Bool :=
  if le₁ a b then if le₁ b a then le₂ a b else true else false

theorem lexComb_trans
    (t₁ : ∀ a b c, le₁ a b → le₁ b c → le₁ a c)
    (t₂ : ∀ a b c, le₂ a b → le₂ b c → le₂ a c)
    (a b c : α) (hab : lexComb le₁ le₂ a b) (hbc : lexComb le₁ le₂ b c) :
    lexComb le₁ le₂ a c := by
  unfold lexComb at *
  by_cases h1ab : le₁ a b = true <;> by_cases h1bc : le₁ b c = true <;>
    simp_all
  have h1ac : le₁ a c = true := t₁ a b c h1ab h1bc
  simp only [h1ac, if_true]
  by_cases h1ca : le₁ c a = true
  · have h1cb : le₁ c b = true := t₁ c a b h1ca h1ab
    have h1ba : le₁ b a = true := t₁ b c a h1bc h1ca
    simp_all
    exact t₂ a b c hab hbc
  · simp [h1ca]

theorem lexComb_total
    (tot₁ : ∀ a b, le₁ a b || le₁ b a)
    (tot₂ : ∀ a b, le₂ a b || le₂ b a)
    (a b : α) : lexComb le₁ le₂ a b || lexComb le₁ le₂ b a := by
  unfold lexComb
  by_cases h1 : le₁ a b = true <;> by_cases h2 : le₁ b a = true
  · simp only [h1, h2, if_true]
    simpa using tot₂ a b
  · simp [h1, h2]
  · simp [h1, h2]
  · have := tot₁ a b
    simp_all

/-- Members of `l.enum` are determined by their index. -/
theorem enum_fst_inj {l : List α} {x y : Nat × α}
    (hx : x ∈ l.enum) (hy : y ∈ l.enum) (h : x.1 = y.1) : x = y := by
  obtain ⟨i, hxi⟩ := List.getElem?_of_mem hx
  obtain ⟨j, hyj⟩ := List.getElem?_of_mem hy
  rw [List.enum_eq_enumFrom, List.getElem?_enumFrom] at hxi hyj
  rcases hli : l[i]? with _ | a <;> rw [hli] at hxi <;> simp_all
  rcases hlj : l[j]? with _ | b <;> rw [hlj] at hyj <;> simp_all
  obtain ⟨rfl, rfl⟩ := hxi
  obtain ⟨rfl, rfl⟩ := hyj
  simp only at h
  subst h
  rw [hli] at hlj
  simp_all

theorem nodup_enum (l : List α) : l.enum.Nodup :=
  List.Nodup.of_map Prod.fst (List.nodup_enum_map_fst l)

/-- Two members of a list occur in one order or the other as a pair
sublist. -/
theorem sublist_pair_or {m : List α} {x y : α}
    (hx : x ∈ m) (hy : y ∈ m) (hxy : x ≠ y) :
    List.Sublist [x, y] m ∨ List.Sublist [y, x] m := by
  induction m with
  | nil => cases hx
  | cons c t ih =>
    rcases List.mem_cons.mp hx with rfl | hx'
    · have hy' : y ∈ t := by
        rcases List.mem_cons.mp hy with rfl | hy'
        · exact absurd rfl hxy
        · exact hy'
      exact Or.inl (List.Sublist.cons₂ x ((List.singleton_sublist).mpr hy'))
    · rcases List.mem_cons.mp hy with rfl | hy'
      · exact Or.inr (List.Sublist.cons₂ y ((List.singleton_sublist).mpr hx'))
      · rcases ih hx' hy' with h | h
        · exact Or.inl (h.cons c)
        · exact Or.inr (h.cons c)

/-- In a duplicate-free list a pair cannot occur in both orders. -/
theorem nodup_both_orders {m : List α} (nd : m.Nodup) {x y : α}
    (h1 : List.Sublist [x, y] m) (h2 : List.Sublist [y, x] m) : x = y := by
  induction m with
  | nil => cases h1
  | cons c t ih =>
    cases h1 with
    | cons _ h1' =>
      cases h2 with
      | cons _ h2' => exact ih (List.Nodup.of_cons nd) h1' h2'
      | cons₂ _ h2' =>
        exfalso
        have : y ∈ t := h1'.subset (by simp)
        exact (List.nodup_cons.mp nd).1 this
    | cons₂ _ h1' =>
      cases h2 with
      | cons _ h2' =>
        exfalso
        have : x ∈ t := h2'.subset (by simp)
        exact (List.nodup_cons.mp nd).1 this
      | cons₂ _ h2' => rfl

/-- Comparator on indexed elements that ignores the index. -/
def liftSnd (le : α → α → Bool) (x y : Nat × α) : Bool := le x.2 y.2

/-- Radix lemma: a stable sort by `le₂` followed by a stable sort by `le₁`
is the stable sort by the lexicographic combination (for transitive, total
Boolean preorders). -/
theorem mergeSort_mergeSort
    (t₁ : ∀ a b c, le₁ a b → le₁ b c → le₁ a c)
    (tot₁ : ∀ a b, le₁ a b || le₁ b a)
    (t₂ : ∀ a b c, le₂ a b → le₂ b c → le₂ a c)
    (tot₂ : ∀ a b, le₂ a b || le₂ b a)
    (l : List α) :
    (l.mergeSort le₂).mergeSort le₁ = l.mergeSort (lexComb le₁ le₂) := by
  have liftTrans : ∀ x y z : Nat × α, liftSnd le₁ x y → liftSnd le₁ y z → liftSnd le₁ x z :=
    fun x y z hxy hyz => t₁ _ _ _ hxy hyz
  have liftTotal : ∀ x y : Nat × α, liftSnd le₁ x y || liftSnd le₁ y x :=
    fun x y => tot₁ _ _
  have lexTrans : ∀ a b c, lexComb le₁ le₂ a b → lexComb le₁ le₂ b c → lexComb le₁ le₂ a c :=
    lexComb_trans t₁ t₂
  have lexTotal : ∀ a b, lexComb le₁ le₂ a b || lexComb le₁ le₂ b a :=
    lexComb_total tot₁ tot₂
  have hA : (l.enum.mergeSort (List.enumLE le₂)).map (·.2) = l.mergeSort le₂ :=
    List.mergeSort_enum
  have hB : ((l.enum.mergeSort (List.enumLE le₂)).mergeSort (liftSnd le₁)).map (·.2) =
      ((l.enum.mergeSort (List.enumLE le₂)).map (·.2)).mergeSort le₁ :=
    List.map_mergeSort (fun _ _ _ _ => rfl)
  have ndE : l.enum.Nodup := nodup_enum l
  have pM : List.Perm (l.enum.mergeSort (List.enumLE le₂)) l.enum := List.mergeSort_perm _ _
  have ndM : (l.enum.mergeSort (List.enumLE le₂)).Nodup := ndE.perm pM.symm
  have pL : List.Perm ((l.enum.mergeSort (List.enumLE le₂)).mergeSort (liftSnd le₁))
      (l.enum.mergeSort (List.enumLE le₂)) := List.mergeSort_perm _ _
  have ndL : ((l.enum.mergeSort (List.enumLE le₂)).mergeSort (liftSnd le₁)).Nodup :=
    ndM.perm pL.symm
  have sortedM : (l.enum.mergeSort (List.enumLE le₂)).Pairwise
      (fun x y => List.enumLE le₂ x y = true) :=
    List.sorted_mergeSort (List.enumLE_trans t₂) (List.enumLE_total tot₂) _
  have pwlift : ((l.enum.mergeSort (List.enumLE le₂)).mergeSort (liftSnd le₁)).Pairwise
      (fun x y => liftSnd le₁ x y = true) :=
    List.sorted_mergeSort liftTrans liftTotal _
  have sorted₂ : (l.enum.mergeSort (List.enumLE (lexComb le₁ le₂))).Pairwise
      (fun x y => List.enumLE (lexComb le₁ le₂) x y = true) :=
    List.sorted_mergeSort (List.enumLE_trans lexTrans) (List.enumLE_total lexTotal) _
  have sorted₁ : ((l.enum.mergeSort (List.enumLE le₂)).mergeSort (liftSnd le₁)).Pairwise
      (fun x y => List.enumLE (lexComb le₁ le₂) x y = true) := by
    rw [List.pairwise_iff_forall_sublist]
    intro x y hsub
    have hab : le₁ x.2 y.2 = true := List.pairwise_iff_forall_sublist.mp pwlift hsub
    by_cases hba : le₁ y.2 x.2 = true
    · have hne : x ≠ y := by
        have := List.Sublist.nodup hsub ndL
        simp_all
      have hxM : x ∈ l.enum.mergeSort (List.enumLE le₂) := pL.subset (hsub.subset (by simp))
      have hyM : y ∈ l.enum.mergeSort (List.enumLE le₂) := pL.subset (hsub.subset (by simp))
      have hM : List.Sublist [x, y] (l.enum.mergeSort (List.enumLE le₂)) := by
        rcases sublist_pair_or hxM hyM hne with h | h
        · exact h
        · exfalso
          have hyx : List.Sublist [y, x]
              ((l.enum.mergeSort (List.enumLE le₂)).mergeSort (liftSnd le₁)) :=
            List.sublist_mergeSort liftTrans liftTotal
              (List.pairwise_pair.mpr hba) h
          exact hne (nodup_both_orders ndL hsub hyx)
      have h2 : List.enumLE le₂ x y = true :=
        List.pairwise_iff_forall_sublist.mp sortedM hM
      by_cases h2ab : le₂ x.2 y.2 = true
      · by_cases h2ba : le₂ y.2 x.2 = true
        · have hidx : decide (x.1 ≤ y.1) = true := by
            simpa [List.enumLE, h2ab, h2ba] using h2
          simp [List.enumLE, lexComb, hab, hba, h2ab, h2ba, hidx]
        · simp [List.enumLE, lexComb, hab, hba, h2ab, h2ba]
      · simp [List.enumLE, h2ab] at h2
    · simp [List.enumLE, lexComb, hab, hba]
  have w : ∀ x y, x ∈ (l.enum.mergeSort (List.enumLE le₂)).mergeSort (liftSnd le₁) →
      y ∈ l.enum.mergeSort (List.enumLE (lexComb le₁ le₂)) →
      List.enumLE (lexComb le₁ le₂) x y → List.enumLE (lexComb le₁ le₂) y x → x = y := by
    intro x y hx hy hxy hyx
    have hx' : x ∈ l.enum := pM.subset (pL.subset hx)
    have hy' : y ∈ l.enum := (List.mergeSort_perm _ _).subset hy
    by_cases hl1 : lexComb le₁ le₂ x.2 y.2 = true
    · by_cases hl2 : lexComb le₁ le₂ y.2 x.2 = true
      · have e1 : x.1 ≤ y.1 := by simpa [List.enumLE, hl1, hl2] using hxy
        have e2 : y.1 ≤ x.1 := by simpa [List.enumLE, hl1, hl2] using hyx
        exact enum_fst_inj hx' hy' (Nat.le_antisymm e1 e2)
      · simp [List.enumLE, hl2] at hyx
    · simp [List.enumLE, hl1] at hxy
  have pAll : List.Perm ((l.enum.mergeSort (List.enumLE le₂)).mergeSort (liftSnd le₁))
      (l.enum.mergeSort (List.enumLE (lexComb le₁ le₂))) :=
    pL.trans (pM.trans (List.mergeSort_perm _ _).symm)
  have hD : (l.enum.mergeSort (List.enumLE le₂)).mergeSort (liftSnd le₁) =
      l.enum.mergeSort (List.enumLE (lexComb le₁ le₂)) :=
    List.Perm.eq_of_sorted w sorted₁ sorted₂ pAll
  calc (l.mergeSort le₂).mergeSort le₁
      = ((l.enum.mergeSort (List.enumLE le₂)).map (·.2)).mergeSort le₁ := by rw [hA]
    _ = ((l.enum.mergeSort (List.enumLE le₂)).mergeSort (liftSnd le₁)).map (·.2) := hB.symm
    _ = (l.enum.mergeSort (List.enumLE (lexComb le₁ le₂))).map (·.2) := by rw [hD]
    _ = l.mergeSort (lexComb le₁ le₂) := List.mergeSort_enum

end SortTheory

namespace InMemoryQuerySet

/-- Totalised version of the per-field pass comparator `passLe` (proof
device): identical on comparable key pairs. -/
def passLeT (field : String) (a b : Obj) : Bool :=
  if fieldReverse field then
    pyLeBT (get_field_value (fieldName field) b) (get_field_value (fieldName field) a)
  else
    pyLeBT (get_field_value (fieldName field) a) (get_field_value (fieldName field) b)

theorem passLeT_trans (field : String) (a b c : Obj)
    (h1 : passLeT field a b) (h2 : passLeT field b c) : passLeT field a c := by
  unfold passLeT at *
  by_cases hr : fieldReverse field = true <;> simp only [hr, if_true, if_false] at *
  · exact pyLeBT_trans _ _ _ h2 h1
  · exact pyLeBT_trans _ _ _ h1 h2

theorem passLeT_total (field : String) (a b : Obj) :
    passLeT field a b || passLeT field b a := by
  unfold passLeT
  by_cases hr : fieldReverse field = true <;> simp only [hr, if_true, if_false]
  · simpa [Bool.or_comm] using pyLeBT_total (get_field_value (fieldName field) b)
      (get_field_value (fieldName field) a)
  · exact pyLeBT_total _ _

theorem comparable_comm (a b : PyVal) : comparable a b = comparable b a := by
  cases a <;> cases b <;> rfl

/-- All pairs of `field`-sorting keys of members of `l` are comparable (the
hypothesis under which Python raises no `TypeError` while sorting by
`field`). -/
def fieldComparable (field : String) (l : List Obj) : Prop :=
  ∀ o1 ∈ l, ∀ o2 ∈ l,
    comparable (get_field_value (fieldName field) o1)
      (get_field_value (fieldName field) o2) = true

/-- `fieldComparable` for every listed field. -/
def fieldsComparable (fields : List String) (l : List Obj) : Prop :=
  ∀ f ∈ fields, fieldComparable f l

instance (field : String) (l : List Obj) : Decidable (fieldComparable field l) := by
  unfold fieldComparable
  infer_instance

instance (fields : List String) (l : List Obj) : Decidable (fieldsComparable fields l) := by
  unfold fieldsComparable
  infer_instance

theorem mergeSort_passLe_eq_passLeT (field : String) (l : List Obj)
    (h : fieldComparable field l) :
    l.mergeSort (passLe field) = l.mergeSort (passLeT field) := by
  have h1 : (l.mergeSort (passLe field)).map id = (l.map id).mergeSort (passLeT field) :=
    List.map_mergeSort (fun a ha b hb => by
      unfold passLe passLeT
      by_cases hr : fieldReverse field = true <;> simp only [hr, if_true, if_false, id]
      · exact pyLeB_eq_pyLeBT _ _ (comparable_comm _ _ ▸ h a ha b hb)
      · exact pyLeB_eq_pyLeBT _ _ (h a ha b hb))
  simpa using h1

/-- Totalised version of the sorting-pass loop (proof device). -/
def sortByFieldsT (fields : List String) (l : List Obj) : List Obj :=
  fields.foldr (fun f r => r.mergeSort (passLeT f)) l

theorem sortByFieldsT_perm (fields : List String) (l : List Obj) :
    List.Perm (sortByFieldsT fields l) l := by
  induction fields with
  | nil => exact List.Perm.refl l
  | cons f fs ih => exact (List.mergeSort_perm _ _).trans ih

theorem sortByFields_eq_T (fields : List String) (l : List Obj)
    (h : fieldsComparable fields l) :
    sortByFields fields l = sortByFieldsT fields l := by
  induction fields with
  | nil => rfl
  | cons f fs ih =>
    have hfs : fieldsComparable fs l := fun g hg => h g (List.mem_cons_of_mem f hg)
    have step : sortByFields (f :: fs) l = (sortByFields fs l).mergeSort (passLe f) := rfl
    rw [step, ih hfs]
    have hf : fieldComparable f (sortByFieldsT fs l) := by
      intro o1 h1 o2 h2
      exact h f (List.mem_cons_self f fs) o1 ((sortByFieldsT_perm fs l).subset h1)
        o2 ((sortByFieldsT_perm fs l).subset h2)
    exact mergeSort_passLe_eq_passLeT f _ hf

/-- The comparator the specification describes for `order_by(f1, ..., fn)`:
lexicographic over the listed fields — primary key first, each later field
breaking ties of all earlier ones — with a `-` prefix reversing that key's
comparisons, a missing or `None` value reading as `""` and strings compared
lowercased. -/
def lexFields : List String → Obj → Obj → Bool
  | [] => fun _ _ => true
  | f :: fs => lexComb (passLeT f) (lexFields fs)

theorem lexFields_trans (fields : List String) (a b c : Obj)
    (h1 : lexFields fields a b) (h2 : lexFields fields b c) :
    lexFields fields a c := by
  induction fields generalizing a b c with
  | nil => rfl
  | cons f fs ih =>
    exact lexComb_trans (passLeT_trans f) ih a b c h1 h2

theorem lexFields_total (fields : List String) (a b : Obj) :
    lexFields fields a b || lexFields fields b a := by
  induction fields generalizing a b with
  | nil => rfl
  | cons f fs ih =>
    exact lexComb_total (passLeT_total f) ih a b

theorem sortByFieldsT_eq_mergeSort (fields : List String) (l : List Obj) :
    sortByFieldsT fields l = l.mergeSort (lexFields fields) := by
  induction fields with
  | nil =>
    exact (List.mergeSort_of_sorted (List.pairwise_iff_forall_sublist.mpr
      (fun _ => rfl))).symm
  | cons f fs ih =>
    have step : sortByFieldsT (f :: fs) l = (sortByFieldsT fs l).mergeSort (passLeT f) := rfl
    rw [step, ih]
    exact mergeSort_mergeSort (passLeT_trans f) (passLeT_total f)
      (lexFields_trans fs) (lexFields_total fs) l

/-- The sorting-pass loop of `order_by`/`__iter__` equals one stable
lexicographic sort, whenever every listed field's keys are pairwise
comparable on the list members. -/
theorem sortByFields_spec (fields : List String) (l : List Obj)
    (h : fieldsComparable fields l) :
    sortByFields fields l = l.mergeSort (lexFields fields) := by
  rw [sortByFields_eq_T fields l h, sortByFieldsT_eq_mergeSort]

end InMemoryQuerySet

/-! ### Characterising `filter` -/

theorem filterE_eq_filter {ε : Type} (p : α → Except ε Bool) (q : α → Bool)
    (l : List α) (h : ∀ a ∈ l, p a = .ok (q a)) :
    filterE p l = .ok (l.filter q) := by
  induction l with
  | nil => rfl
  | cons a l ih =>
    have ha : p a = .ok (q a) := h a (List.mem_cons_self a l)
    have ih' := ih (fun b hb => h b (List.mem_cons_of_mem a hb))
    simp only [filterE, ha, ih', List.filter_cons, Bind.bind, Except.bind]
    cases hqa : q a <;> simp [hqa, pure, Except.pure]

theorem filterE_ok_defined {ε : Type} (p : α → Except ε Bool) (l r : List α)
    (h : filterE p l = .ok r) : ∀ a ∈ l, ∃ b, p a = .ok b := by
  induction l generalizing r with
  | nil => intro a ha; cases ha
  | cons a l ih =>
    intro x hx
    cases hpa : p a with
    | error e => simp [filterE, hpa, Bind.bind, Except.bind] at h
    | ok b =>
      cases hrest : filterE p l with
      | error e => simp [filterE, hpa, hrest, Bind.bind, Except.bind] at h
      | ok r' =>
        rcases List.mem_cons.mp hx with rfl | hx'
        · exact ⟨b, hpa⟩
        · exact ih r' hrest x hx'

theorem filterE_ok_eq {ε : Type} (p : α → Except ε Bool) (l r : List α)
    (h : filterE p l = .ok r) :
    r = l.filter fun a => match p a with | .ok b => b | .error _ => false := by
  have hdef := filterE_ok_defined p l r h
  have := filterE_eq_filter p (fun a => match p a with | .ok b => b | .error _ => false) l
    (fun a ha => by
      obtain ⟨b, hb⟩ := hdef a ha
      simp [hb])
  rw [this] at h
  exact (Except.ok.injEq _ _ ▸ h).symm

namespace InMemoryQuerySet

/-- The per-element predicate of each lookup branch, read off the list
comprehensions of `filter` (`Option.none` models the branch raising on this
element).  For the `"__"` lookups a missing attribute reads as `""`
(`attr_value`); for the bare `field=value` form it reads as `None`. -/
def lookupSat : Lookup → Obj → Option Bool
  | .bare f v, o => some (pyEq (getattrD o f .none) v)
  | .exact f v, o => some (pyEq (attr_value o f) v)
  | .icontains f v, o => some (strIn (lowerStr v) (lowerStr (pyStr (attr_value o f))))
  | .contains f v, o => some (strIn v (pyStr (attr_value o f)))
  | .isIn f vs, o => some (vs.contains (attr_value o f))
  | .gt f v, o => pyLt v (attr_value o f)
  | .gte f v, o => pyLe v (attr_value o f)
  | .lt f v, o => pyLt (attr_value o f) v
  | .lte f v, o => pyLe (attr_value o f) v
  | .isnull f v, o =>
      some (if v then pyEq (attr_value o f) .none || pyEq (attr_value o f) (.str "")
            else !(pyEq (attr_value o f) .none || pyEq (attr_value o f) (.str "")))
  | .startswith f v, o => some (startsWithStr (pyStr (attr_value o f)) v)
  | .istartswith f v, o =>
      some (startsWithStr (lowerStr (pyStr (attr_value o f))) (lowerStr v))
  | .endswith f v, o => some (endsWithStr (pyStr (attr_value o f)) v)
  | .iendswith f v, o =>
      some (endsWithStr (lowerStr (pyStr (attr_value o f))) (lowerStr v))

theorem filterE_cmpE_ok (g : Obj → Option Bool) (l r : List Obj)
    (h : filterE (fun o => cmpE (g o)) l = .ok r) :
    r = l.filter (fun o => (g o).getD false) ∧ ∀ o ∈ l, (g o).isSome := by
  constructor
  · rw [filterE_ok_eq _ _ _ h]
    apply List.filter_congr
    intro o ho
    cases hg : g o <;> simp [cmpE, hg]
  · intro o ho
    obtain ⟨b, hb⟩ := filterE_ok_defined _ _ _ h o ho
    cases hg : g o <;> simp [cmpE, hg] at hb ⊢

/-- Each lookup branch of `filter`, when it raises no exception, computes
the pointwise `List.filter` of that lookup's predicate (so it keeps exactly
the satisfying elements in their original relative order), and then the
predicate was defined on every element of the input. -/
theorem applyLookup_ok (lk : Lookup) (l r : List Obj)
    (h : applyLookup lk l = .ok r) :
    r = l.filter (fun o => (lookupSat lk o).getD false) ∧
    ∀ o ∈ l, (lookupSat lk o).isSome := by
  cases lk with
  | gt f v => exact filterE_cmpE_ok _ l r h
  | gte f v => exact filterE_cmpE_ok _ l r h
  | lt f v => exact filterE_cmpE_ok _ l r h
  | lte f v => exact filterE_cmpE_ok _ l r h
  | isnull f v =>
    cases v <;>
      simp only [applyLookup, Bool.false_eq_true, if_false, if_true,
        Except.ok.injEq] at h <;>
      exact ⟨h.symm, fun o _ => by simp [lookupSat]⟩
  | bare f v =>
    simp only [applyLookup, Except.ok.injEq] at h
    exact ⟨h.symm, fun o _ => by simp [lookupSat]⟩
  | exact f v =>
    simp only [applyLookup, Except.ok.injEq] at h
    exact ⟨h.symm, fun o _ => by simp [lookupSat]⟩
  | icontains f v =>
    simp only [applyLookup, Except.ok.injEq] at h
    exact ⟨h.symm, fun o _ => by simp [lookupSat]⟩
  | contains f v =>
    simp only [applyLookup, Except.ok.injEq] at h
    exact ⟨h.symm, fun o _ => by simp [lookupSat]⟩
  | isIn f vs =>
    simp only [applyLookup, Except.ok.injEq] at h
    exact ⟨h.symm, fun o _ => by simp [lookupSat]⟩
  | startswith f v =>
    simp only [applyLookup, Except.ok.injEq] at h
    exact ⟨h.symm, fun o _ => by simp [lookupSat]⟩
  | istartswith f v =>
    simp only [applyLookup, Except.ok.injEq] at h
    exact ⟨h.symm, fun o _ => by simp [lookupSat]⟩
  | endswith f v =>
    simp only [applyLookup, Except.ok.injEq] at h
    exact ⟨h.symm, fun o _ => by simp [lookupSat]⟩
  | iendswith f v =>
    simp only [applyLookup, Except.ok.injEq] at h
    exact ⟨h.symm, fun o _ => by simp [lookupSat]⟩

/-- A successful run of the `kwargs` loop of `filter` is a pointwise
`List.filter` of its input. -/
theorem foldlM_applyLookup_filter (kwargs : List Lookup) (l r : List Obj)
    (h : kwargs.foldlM (fun r lk => applyLookup lk r) l = .ok r) :
    ∃ p : Obj → Bool, r = l.filter p := by
  induction kwargs generalizing l with
  | nil =>
    refine ⟨fun _ => true, ?_⟩
    simp only [List.foldlM_nil] at h
    cases h
    simp
  | cons lk ks ih =>
    rw [List.foldlM_cons] at h
    cases happ : applyLookup lk l with
    | error e => rw [happ] at h; simp [Bind.bind, Except.bind] at h
    | ok l1 =>
      rw [happ] at h
      simp only [Bind.bind, Except.bind] at h
      obtain ⟨p2, hp2⟩ := ih l1 h
      obtain ⟨hl1, -⟩ := applyLookup_ok lk l l1 happ
      refine ⟨fun o => p2 o && (lookupSat lk o).getD false, ?_⟩
      rw [hp2, hl1, List.filter_filter]

end InMemoryQuerySet

/-! ### `CachedQuerySet` and `APIQuerySet` data loading -/

/-- Result of one invocation of `fetch_func()`:
`isinstance(data, list)` distinguishes a list from a scalar. -/
inductive FetchResult where
  | list (xs : List Obj)
  | scalar (x : Obj)
deriving DecidableEq, Repr

/-- `data if isinstance(data, list) else [data]`. -/
def wrapFetch : FetchResult → List Obj
  | .list xs => xs
  | .scalar x => [x]

/-- A cache backend dict mapping keys to `(data, timestamp)` pairs. -/
abbrev CacheBackend := List (String × (List Obj × Int))

/-- Python dict assignment `backend[key] = v`: replace in place, or append a
new key. -/
def backendSet : CacheBackend → String → (List Obj × Int) → CacheBackend
  | [], k, v => [(k, v)]
  | (k', v') :: rest, k, v =>
      if k' = k then (k, v) :: rest else (k', v') :: backendSet rest k v

namespace CachedQuerySet

/-- The fall-through part of `CachedQuerySet._get_cached_or_fetch` (reached
when the key is absent or the entry expired): `if self.fetch_func:` then
`try: ... except Exception: ...`.  `fetch_func` is `Option.none` when
`self.fetch_func` is `None`, otherwise the value returned or the exception
raised by its one invocation.  Returns (data, backend after the call,
whether `fetch_func` was invoked). -/
def tryFetch (cache_key : String) (cache_backend : CacheBackend)
    (fetch_func : Option (Except String FetchResult)) (now : Int) :
    List Obj × CacheBackend × Bool :=
  match fetch_func with
  | Option.none => ([], cache_backend, false)
  | some (.ok data) =>
      let data_list := wrapFetch data
      (data_list, backendSet cache_backend cache_key (data_list, now), true)
  | some (.error _) =>
      match cache_backend.lookup cache_key with
      | some (cached_data, _) => (cached_data, cache_backend, true)
      | Option.none => ([], cache_backend, true)

/-- `CachedQuerySet._get_cached_or_fetch` at time `now` (`time.time()`
modelled as an integer): a fresh cache entry is returned as is, otherwise
the fetch path runs. -/
def get_cached_or_fetch (cache_key : String) (cache_timeout : Int)
    (cache_backend : CacheBackend)
    (fetch_func : Option (Except String FetchResult)) (now : Int) :
    List Obj × CacheBackend × Bool :=
  match cache_backend.lookup cache_key with
  | some (cached_data, timestamp) =>
      if now - timestamp < cache_timeout then (cached_data, cache_backend, false)
      else tryFetch cache_key cache_backend fetch_func now
  | Option.none => tryFetch cache_key cache_backend fetch_func now

/-- The data-selection step of `CachedQuerySet.__init__` (with an explicit
`cache_key`): when `data is None` the data comes from
`_get_cached_or_fetch`, otherwise `data` is used and neither the cache nor
`fetch_func` is touched.  The first component becomes
`self._result_cache`. -/
def init_data (data : Option (List Obj)) (cache_key : String)
    (cache_timeout : Int) (cache_backend : CacheBackend)
    (fetch_func : Option (Except String FetchResult)) (now : Int) :
    List Obj × CacheBackend × Bool :=
  match data with
  | some d => (d, cache_backend, false)
  | Option.none =>
      get_cached_or_fetch cache_key cache_timeout cache_backend fetch_func now

end CachedQuerySet

namespace APIQuerySet

/-- The `if self.fetch_func: try ... except` part of
`APIQuerySet._fetch_data`.  Returns (data, `self._cache` after,
`self._last_fetch` after). -/
def api_try_fetch (cache : Option (List Obj)) (last_fetch : Option Int)
    (fetch_func : Option (Except String FetchResult)) (now : Int) :
    List Obj × Option (List Obj) × Option Int :=
  match fetch_func with
  | Option.none => ([], cache, last_fetch)
  | some (.ok data) => (wrapFetch data, some (wrapFetch data), some now)
  | some (.error _) =>
      match cache with
      | some c => (c, cache, last_fetch)
      | Option.none => ([], cache, last_fetch)

/-- `APIQuerySet._fetch_data` at time `now`: return the instance cache when
both `self._cache` and `self._last_fetch` are set and fresh, otherwise run
the fetch path. -/
def fetch_data (cache : Option (List Obj)) (last_fetch : Option Int)
    (cache_timeout : Int) (fetch_func : Option (Except String FetchResult))
    (now : Int) : List Obj × Option (List Obj) × Option Int :=
  match cache, last_fetch with
  | some c, some lf =>
      if now - lf < cache_timeout then (c, some c, some lf)
      else api_try_fetch (some c) (some lf) fetch_func now
  | c, lf => api_try_fetch c lf fetch_func now

end APIQuerySet

/-! ### Virtual models (`models.py`) -/

/-- A Python exception raised by the virtual model methods. -/
inductive PyExc where
  | notImplementedError (msg : String)
deriving DecidableEq, Repr

/-- A `VirtualModel` instance (`models.py`); only
`self.__class__.__name__` is observable in `save`/`delete`. -/
structure VirtualModel where
  clsName : String
deriving DecidableEq, Repr

/-- `VirtualModel.save(*args, **kwargs)`: unconditionally raises
`NotImplementedError` before touching anything. -/
def VirtualModel.save (self : VirtualModel) (_args : List PyVal)
    (_kwargs : List (String × PyVal)) : Except PyExc Unit :=
  .error (.notImplementedError (self.clsName ++
    " is a virtual model and cannot be saved to database. Override save() if you want to implement custom persistence."))

/-- `VirtualModel.delete(*args, **kwargs)`: unconditionally raises
`NotImplementedError`. -/
def VirtualModel.delete (self : VirtualModel) (_args : List PyVal)
    (_kwargs : List (String × PyVal)) : Except PyExc Unit :=
  .error (.notImplementedError (self.clsName ++
    " is a virtual model and cannot be deleted from database. Override delete() if you want to implement custom deletion."))

/-- A `ReadOnlyVirtualModel` instance; it overrides `save`/`delete` with
its own messages. -/
structure ReadOnlyVirtualModel where
  clsName : String
deriving DecidableEq, Repr

/-- `ReadOnlyVirtualModel.save(*args, **kwargs)`. -/
def ReadOnlyVirtualModel.save (self : ReadOnlyVirtualModel) (_args : List PyVal)
    (_kwargs : List (String × PyVal)) : Except PyExc Unit :=
  .error (.notImplementedError (self.clsName ++ " is read-only and cannot be modified."))

/-- `ReadOnlyVirtualModel.delete(*args, **kwargs)`. -/
def ReadOnlyVirtualModel.delete (self : ReadOnlyVirtualModel) (_args : List PyVal)
    (_kwargs : List (String × PyVal)) : Except PyExc Unit :=
  .error (.notImplementedError (self.clsName ++ " is read-only and cannot be deleted."))

/-! ### State-passing views of the method calls

Each Python method below only reads `self._result_cache` and `self.query`
and assigns to no attribute of `self` (the bodies rebind a local `rslt` or
sort a copy, then build a fresh object via `self.__class__(...)`), so the
receiver's post-state — the first component — is the receiver itself. -/

namespace InMemoryQuerySet

/-- `qs.filter(**kwargs)` as (receiver post-state, returned value). -/
def call_filter (qs : InMemoryQuerySet) (kwargs : List Lookup) :
    InMemoryQuerySet × Except String InMemoryQuerySet := (qs, filter qs kwargs)

/-- `qs.exclude(**kwargs)` as (receiver post-state, returned value). -/
def call_exclude (qs : InMemoryQuerySet) (kwargs : List Lookup) :
    InMemoryQuerySet × Except String InMemoryQuerySet := (qs, exclude qs kwargs)

/-- `qs.order_by(*fields)` as (receiver post-state, returned value). -/
def call_order_by (qs : InMemoryQuerySet) (fields : List String) :
    InMemoryQuerySet × InMemoryQuerySet := (qs, order_by qs fields)

/-- `qs.reverse()` as (receiver post-state, returned value). -/
def call_reverse (qs : InMemoryQuerySet) :
    InMemoryQuerySet × InMemoryQuerySet := (qs, reverse qs)

/-- `qs.distinct()` as (receiver post-state, returned value). -/
def call_distinct (qs : InMemoryQuerySet) :
    InMemoryQuerySet × InMemoryQuerySet := (qs, distinct qs)

/-- `qs.all()` as (receiver post-state, returned value). -/
def call_all (qs : InMemoryQuerySet) :
    InMemoryQuerySet × InMemoryQuerySet := (qs, all qs)

/-- `qs.none()` as (receiver post-state, returned value). -/
def call_none (qs : InMemoryQuerySet) :
    InMemoryQuerySet × InMemoryQuerySet := (qs, none qs)

/-- `qs.get(**kwargs)` as (receiver post-state, returned value). -/
def call_get (qs : InMemoryQuerySet) (kwargs : List (String × PyVal)) :
    InMemoryQuerySet × Except GetErr Obj := (qs, get qs kwargs)

end InMemoryQuerySet

/-! ### Witness fixtures -/

def oA : Obj := ⟨1, [("name", PyVal.str "Alpha"), ("n", PyVal.int 2)]⟩

def oB : Obj := ⟨2, [("name", PyVal.str "beta"), ("n", PyVal.int 1)]⟩

def oC : Obj := ⟨3, []⟩

def qsW : InMemoryQuerySet := ⟨"InMemoryQuerySet", Option.none, [oA, oB, oC], ⟨[]⟩⟩

/-! ### Claims -/

/-- C1: for every in-memory queryset and every lookup the spec lists
(`exact`, bare `field=value`, `icontains`, `in`, `gt`/`gte`/`lt`/`lte`,
`isnull`, `startswith` and variants), a successful `filter(**kwargs)` call
returns a queryset whose element list is exactly the sublist of the
original elements satisfying the lookup's predicate on the named field
(`lookupSat`, in which a missing attribute reads as `""` for
double-underscore lookups and as `None` for the bare form), preserving the
original relative order. -/
theorem C1_filter_keeps_exactly_matching_elements
    (qs : InMemoryQuerySet) (lk : Lookup) (r : InMemoryQuerySet)
    (h : InMemoryQuerySet.filter qs [lk] = .ok r) :
    r.elems = qs.elems.filter
      (fun o => (InMemoryQuerySet.lookupSat lk o).getD false) ∧
    List.Sublist r.elems qs.elems ∧
    ∀ o ∈ qs.elems, (InMemoryQuerySet.lookupSat lk o).isSome := by
  cases happ : InMemoryQuerySet.applyLookup lk qs.elems with
  | error e =>
    simp [InMemoryQuerySet.filter, List.foldlM, happ, Bind.bind, Except.bind] at h
  | ok l1 =>
    obtain ⟨h1, h2⟩ := InMemoryQuerySet.applyLookup_ok lk qs.elems l1 happ
    have hr : r = { qs with elems := l1, query := qs.query.clone } := by
      simp [InMemoryQuerySet.filter, List.foldlM, happ, Bind.bind, Except.bind,
        pure, Except.pure] at h
      exact h.symm
    subst hr
    refine ⟨h1, ?_, h2⟩
    rw [h1]
    exact List.filter_sublist qs.elems

/-- Witness for C1 at a concrete queryset and an `icontains` lookup. -/
theorem C1_witness :
    ({ qsW with elems := [oA] } : InMemoryQuerySet).elems =
      qsW.elems.filter (fun o =>
        (InMemoryQuerySet.lookupSat (Lookup.icontains "name" "AL") o).getD false) ∧
    List.Sublist ({ qsW with elems := [oA] } : InMemoryQuerySet).elems qsW.elems ∧
    ∀ o ∈ qsW.elems,
      (InMemoryQuerySet.lookupSat (Lookup.icontains "name" "AL") o).isSome :=
  C1_filter_keeps_exactly_matching_elements qsW (Lookup.icontains "name" "AL")
    { qsW with elems := [oA] } (by rfl)

theorem filter_singleton (qs : InMemoryQuerySet) (lk : Lookup) :
    InMemoryQuerySet.filter qs [lk] =
      match InMemoryQuerySet.applyLookup lk qs.elems with
      | .ok l => .ok { qs with elems := l, query := qs.query.clone }
      | .error e => .error e := by
  cases h : InMemoryQuerySet.applyLookup lk qs.elems <;>
    simp [InMemoryQuerySet.filter, List.foldlM, h, Bind.bind, Except.bind,
      pure, Except.pure]

/-- C10: `filter(field__isnull=True)` keeps exactly the elements whose
field value is `None` or `""` — a missing attribute reads as `""` and so is
kept — and `filter(field__isnull=False)` keeps exactly the complementary
elements, both preserving relative order (both calls always succeed). -/
theorem C10_isnull_keeps_none_or_empty
    (qs : InMemoryQuerySet) (f : String) :
    (∃ qsT, InMemoryQuerySet.filter qs [Lookup.isnull f true] = .ok qsT ∧
      qsT.elems = qs.elems.filter fun o =>
        decide (InMemoryQuerySet.attr_value o f = PyVal.none ∨
          InMemoryQuerySet.attr_value o f = PyVal.str "")) ∧
    (∃ qsF, InMemoryQuerySet.filter qs [Lookup.isnull f false] = .ok qsF ∧
      qsF.elems = qs.elems.filter fun o =>
        !(decide (InMemoryQuerySet.attr_value o f = PyVal.none ∨
          InMemoryQuerySet.attr_value o f = PyVal.str ""))) ∧
    (∀ o : Obj, o.attrs.lookup f = Option.none →
      InMemoryQuerySet.attr_value o f = PyVal.str "") := by
  have hpred : ∀ o : Obj,
      (pyEq (InMemoryQuerySet.attr_value o f) PyVal.none ||
        pyEq (InMemoryQuerySet.attr_value o f) (PyVal.str "")) =
      decide (InMemoryQuerySet.attr_value o f = PyVal.none ∨
        InMemoryQuerySet.attr_value o f = PyVal.str "") := by
    intro o
    by_cases h1 : InMemoryQuerySet.attr_value o f = PyVal.none <;>
      by_cases h2 : InMemoryQuerySet.attr_value o f = PyVal.str "" <;>
      simp [pyEq, h1, h2]
  refine ⟨?_, ?_, ?_⟩
  · refine ⟨_, filter_singleton qs (Lookup.isnull f true), ?_⟩
    simp only [InMemoryQuerySet.applyLookup, if_true]
    exact List.filter_congr fun o _ => hpred o
  · refine ⟨_, filter_singleton qs (Lookup.isnull f false), ?_⟩
    simp only [InMemoryQuerySet.applyLookup, Bool.false_eq_true, if_false]
    exact List.filter_congr fun o _ => by rw [hpred o]
  · intro o h
    simp [InMemoryQuerySet.attr_value, getattrD, h]

/-- Witness for C10: the object with no attributes is kept by
`isnull=True`. -/
theorem C10_witness :
    InMemoryQuerySet.attr_value oC "name" = PyVal.str "" :=
  (C10_isnull_keeps_none_or_empty qsW "name").2.2 oC (by rfl)

/-- C2: `order_by(f1, ..., fn)` returns a permutation of the stored list
equal to the one stable (merge) sort under the lexicographic comparator
`lexFields` — primary key `f1`, each later field breaking ties of all
earlier ones, `-` prefix descending, `None`/missing values as `""`,
strings lowercased — and the result is sorted under that comparator.  The
hypothesis keeps out mixed-kind key pairs, on which Python's `sort` would
raise `TypeError`. -/
theorem C2_order_by_is_stable_multikey_sort
    (qs : InMemoryQuerySet) (fields : List String)
    (h : InMemoryQuerySet.fieldsComparable fields qs.elems) :
    (InMemoryQuerySet.order_by qs fields).elems =
      qs.elems.mergeSort (InMemoryQuerySet.lexFields fields) ∧
    List.Perm (InMemoryQuerySet.order_by qs fields).elems qs.elems ∧
    (InMemoryQuerySet.order_by qs fields).elems.Pairwise
      (fun a b => InMemoryQuerySet.lexFields fields a b = true) := by
  have he : (InMemoryQuerySet.order_by qs fields).elems =
      InMemoryQuerySet.sortByFields fields qs.elems := rfl
  have h1 := InMemoryQuerySet.sortByFields_spec fields qs.elems h
  refine ⟨he ▸ h1, ?_, ?_⟩
  · rw [he, h1]
    exact List.mergeSort_perm _ _
  · rw [he, h1]
    exact List.sorted_mergeSort (InMemoryQuerySet.lexFields_trans fields)
      (InMemoryQuerySet.lexFields_total fields) _

/-- Witness for C2 at a concrete queryset sorted by `name`. -/
theorem C2_witness :
    (InMemoryQuerySet.order_by qsW ["name"]).elems =
      qsW.elems.mergeSort (InMemoryQuerySet.lexFields ["name"]) ∧
    List.Perm (InMemoryQuerySet.order_by qsW ["name"]).elems qsW.elems ∧
    (InMemoryQuerySet.order_by qsW ["name"]).elems.Pairwise
      (fun a b => InMemoryQuerySet.lexFields ["name"] a b = true) :=
  C2_order_by_is_stable_multikey_sort qsW ["name"] (by decide)

def qsW2 : InMemoryQuerySet := ⟨"ConfigQuerySet", some "Model", [oA, oB, oC], ⟨["name"]⟩⟩

/-- C6: iterating a queryset whose `query.order_by` is non-empty yields the
stored elements under the stable lexicographic sort of those fields (`-`
descending, `None`/missing as `""`, strings lowercased); with an empty
`order_by` it yields the stored list in stored order.  (With an empty field
list the sort is the identity, so the second part needs no non-emptiness
hypothesis.) -/
theorem C6_iter_applies_query_ordering (qs : InMemoryQuerySet) :
    (qs.query.order_by = [] → InMemoryQuerySet.iter qs = qs.elems) ∧
    (InMemoryQuerySet.fieldsComparable qs.query.order_by qs.elems →
      InMemoryQuerySet.iter qs =
        qs.elems.mergeSort (InMemoryQuerySet.lexFields qs.query.order_by) ∧
      List.Perm (InMemoryQuerySet.iter qs) qs.elems ∧
      (InMemoryQuerySet.iter qs).Pairwise
        (fun a b => InMemoryQuerySet.lexFields qs.query.order_by a b = true)) := by
  constructor
  · intro h
    simp [InMemoryQuerySet.iter, h]
  · intro h
    have he : InMemoryQuerySet.iter qs =
        InMemoryQuerySet.sortByFields qs.query.order_by qs.elems := by
      cases hq : qs.query.order_by with
      | nil => simp [InMemoryQuerySet.iter, hq, InMemoryQuerySet.sortByFields]
      | cons f fs => simp [InMemoryQuerySet.iter, hq]
    have h1 := InMemoryQuerySet.sortByFields_spec qs.query.order_by qs.elems h
    refine ⟨he ▸ h1, ?_, ?_⟩
    · rw [he, h1]
      exact List.mergeSort_perm _ _
    · rw [he, h1]
      exact List.sorted_mergeSort (InMemoryQuerySet.lexFields_trans _)
        (InMemoryQuerySet.lexFields_total _) _

/-- Witness for C6: an empty ordering yields the stored list; a non-empty
ordering yields the lexicographic sort. -/
theorem C6_witness :
    InMemoryQuerySet.iter qsW = qsW.elems ∧
    InMemoryQuerySet.iter qsW2 =
      qsW2.elems.mergeSort (InMemoryQuerySet.lexFields qsW2.query.order_by) :=
  ⟨(C6_iter_applies_query_ordering qsW).1 rfl,
   ((C6_iter_applies_query_ordering qsW2).2 (by decide)).1⟩

namespace InMemoryQuerySet

/-- The predicate `get(**kwargs)` selects by: every named attribute equals
the given value (the claim's "named attributes all equal the given
values"). -/
def matchPred (kwargs : List (String × PyVal)) (o : Obj) : Bool :=
  kwargs.all fun av => pyEq ((getattrE o av.1).getD .none) av.2

theorem get_loop_eq (kwargs : List (String × PyVal)) (l : List Obj)
    (h : ∀ o ∈ l, ∀ av ∈ kwargs, (getattrE o av.1).isSome) :
    (kwargs.foldlM
      (fun r av => filterE (fun o =>
        match getattrE o av.1 with
        | some x => .ok (pyEq x av.2)
        | Option.none => .error GetErr.attributeError) r) l) =
      .ok (l.filter (matchPred kwargs)) := by
  induction kwargs generalizing l with
  | nil =>
    simp only [List.foldlM_nil]
    rw [List.filter_eq_self.mpr (fun a _ => by simp [matchPred])]
    rfl
  | cons av ks ih =>
    rw [List.foldlM_cons]
    have h1 : filterE (fun o =>
        match getattrE o av.1 with
        | some x => .ok (pyEq x av.2)
        | Option.none => .error GetErr.attributeError) l =
        .ok (l.filter fun o => pyEq ((getattrE o av.1).getD .none) av.2) := by
      apply filterE_eq_filter
      intro o ho
      have := h o ho av (List.mem_cons_self av ks)
      cases hg : getattrE o av.1 with
      | none => rw [hg] at this; simp at this
      | some x => simp [hg]
    rw [h1]
    simp only [Bind.bind, Except.bind]
    rw [ih (l.filter fun o => pyEq ((getattrE o av.1).getD .none) av.2)
      (fun o ho av2 hav2 => h o (List.mem_of_mem_filter ho) av2 (List.mem_cons_of_mem av hav2))]
    rw [List.filter_filter]
    congr 1
    apply List.filter_congr
    intro o ho
    simp [matchPred, List.all_cons, Bool.and_comm]

end InMemoryQuerySet

/-- C4: when every element has every attribute named in `kwargs`, `get`
returns the unique matching element if there is exactly one, raises
`ObjectDoesNotExist` if there is none and `MultipleObjectsReturned` if
there are several; the receiver's stored list is unchanged in every
case. -/
theorem C4_get_unique_match_or_raises
    (qs : InMemoryQuerySet) (kwargs : List (String × PyVal))
    (h : ∀ o ∈ qs.elems, ∀ av ∈ kwargs, (getattrE o av.1).isSome) :
    (InMemoryQuerySet.call_get qs kwargs).1 = qs ∧
    (∀ m, qs.elems.filter (InMemoryQuerySet.matchPred kwargs) = [m] →
      InMemoryQuerySet.get qs kwargs = .ok m) ∧
    (qs.elems.filter (InMemoryQuerySet.matchPred kwargs) = [] →
      InMemoryQuerySet.get qs kwargs = .error .objectDoesNotExist) ∧
    (2 ≤ (qs.elems.filter (InMemoryQuerySet.matchPred kwargs)).length →
      InMemoryQuerySet.get qs kwargs = .error .multipleObjectsReturned) := by
  have hloop := InMemoryQuerySet.get_loop_eq kwargs qs.elems h
  have hget : InMemoryQuerySet.get qs kwargs =
      match qs.elems.filter (InMemoryQuerySet.matchPred kwargs) with
      | [r] => .ok r
      | [] => .error .objectDoesNotExist
      | _ => .error .multipleObjectsReturned := by
    simp [InMemoryQuerySet.get, hloop, Bind.bind, Except.bind, pure, Except.pure]
  refine ⟨rfl, ?_, ?_, ?_⟩
  · intro m hm
    rw [hget, hm]
  · intro hm
    rw [hget, hm]
  · intro hlen
    rw [hget]
    cases hm : qs.elems.filter (InMemoryQuerySet.matchPred kwargs) with
    | nil => rw [hm] at hlen; simp at hlen
    | cons a t =>
      cases t with
      | nil => rw [hm] at hlen; simp at hlen
      | cons b t2 => rfl

def qsG : InMemoryQuerySet := ⟨"InMemoryQuerySet", Option.none, [oA, oB], ⟨[]⟩⟩

/-- Witness for C4: a unique match is returned. -/
theorem C4_witness :
    (InMemoryQuerySet.call_get qsG [("name", PyVal.str "beta")]).1 = qsG ∧
    InMemoryQuerySet.get qsG [("name", PyVal.str "beta")] = .ok oB :=
  ⟨(C4_get_unique_match_or_raises qsG [("name", PyVal.str "beta")] (by decide)).1,
   (C4_get_unique_match_or_raises qsG [("name", PyVal.str "beta")] (by decide)).2.1
     oB (by rfl)⟩

/-- C5: every chaining call — `filter`, `exclude`, `order_by`, `reverse`,
`distinct`, `all`, `none` — leaves the receiver (hence its
`_result_cache`) unchanged and, when it returns, returns a queryset of the
same class as the receiver (`self.__class__(...)`). -/
theorem C5_chaining_preserves_class_and_receiver
    (qs : InMemoryQuerySet) (kwargs : List Lookup) (fields : List String) :
    (InMemoryQuerySet.call_filter qs kwargs).1 = qs ∧
    (∀ r, (InMemoryQuerySet.call_filter qs kwargs).2 = .ok r → r.cls = qs.cls) ∧
    (InMemoryQuerySet.call_exclude qs kwargs).1 = qs ∧
    (∀ r, (InMemoryQuerySet.call_exclude qs kwargs).2 = .ok r → r.cls = qs.cls) ∧
    (InMemoryQuerySet.call_order_by qs fields).1 = qs ∧
    (InMemoryQuerySet.call_order_by qs fields).2.cls = qs.cls ∧
    (InMemoryQuerySet.call_reverse qs).1 = qs ∧
    (InMemoryQuerySet.call_reverse qs).2.cls = qs.cls ∧
    (InMemoryQuerySet.call_distinct qs).1 = qs ∧
    (InMemoryQuerySet.call_distinct qs).2.cls = qs.cls ∧
    (InMemoryQuerySet.call_all qs).1 = qs ∧
    (InMemoryQuerySet.call_all qs).2.cls = qs.cls ∧
    (InMemoryQuerySet.call_none qs).1 = qs ∧
    (InMemoryQuerySet.call_none qs).2.cls = qs.cls := by
  refine ⟨rfl, ?_, rfl, ?_, rfl, rfl, rfl, rfl, rfl, rfl, rfl, rfl, rfl, rfl⟩
  · intro r h
    simp only [InMemoryQuerySet.call_filter] at h
    cases hf : kwargs.foldlM
        (fun r lk => InMemoryQuerySet.applyLookup lk r) qs.elems with
    | error e =>
      simp [InMemoryQuerySet.filter, hf, Bind.bind, Except.bind] at h
    | ok l =>
      simp [InMemoryQuerySet.filter, hf, Bind.bind, Except.bind,
        pure, Except.pure] at h
      rw [← h]
  · intro r h
    simp only [InMemoryQuerySet.call_exclude] at h
    cases hf : InMemoryQuerySet.filter qs kwargs with
    | error e =>
      simp [InMemoryQuerySet.exclude, hf, Bind.bind, Except.bind] at h
    | ok f =>
      simp [InMemoryQuerySet.exclude, hf, Bind.bind, Except.bind,
        pure, Except.pure] at h
      rw [← h]

/-- Witness for C5 at a concrete queryset. -/
theorem C5_witness :
    (InMemoryQuerySet.call_filter qsW [Lookup.exact "name" (PyVal.str "Alpha")]).1 =
      qsW ∧
    ({ qsW with elems := [oA] } : InMemoryQuerySet).cls = qsW.cls :=
  ⟨(C5_chaining_preserves_class_and_receiver qsW
      [Lookup.exact "name" (PyVal.str "Alpha")] []).1,
   (C5_chaining_preserves_class_and_receiver qsW
      [Lookup.exact "name" (PyVal.str "Alpha")] []).2.1
     { qsW with elems := [oA] } (by rfl)⟩

theorem filter_ok_shape (qs : InMemoryQuerySet) (kwargs : List Lookup)
    (r : InMemoryQuerySet) (h : InMemoryQuerySet.filter qs kwargs = .ok r) :
    ∃ p : Obj → Bool, r.elems = qs.elems.filter p := by
  cases hf : kwargs.foldlM
      (fun r lk => InMemoryQuerySet.applyLookup lk r) qs.elems with
  | error e =>
    simp [InMemoryQuerySet.filter, hf, Bind.bind, Except.bind] at h
  | ok l =>
    simp [InMemoryQuerySet.filter, hf, Bind.bind, Except.bind,
      pure, Except.pure] at h
    obtain ⟨p, hp⟩ := InMemoryQuerySet.foldlM_applyLookup_filter kwargs qs.elems l hf
    exact ⟨p, by rw [← h]; exact hp⟩

/-- C8: `exclude(**k)` keeps exactly the stored elements whose object
identity (`id()`) does not occur in `filter(**k)`, in the original
relative order; and since `id()` determines the object, `filter` and
`exclude` with the same lookups partition the queryset:
`filter(**k).count() + exclude(**k).count() == count()`. -/
theorem C8_filter_exclude_partition
    (qs : InMemoryQuerySet) (kwargs : List Lookup) (f : InMemoryQuerySet)
    (hinj : ∀ o1 ∈ qs.elems, ∀ o2 ∈ qs.elems, o1.oid = o2.oid → o1 = o2)
    (hf : InMemoryQuerySet.filter qs kwargs = .ok f) :
    ∃ e, InMemoryQuerySet.exclude qs kwargs = .ok e ∧
      e.elems = qs.elems.filter
        (fun o => !((f.elems.map Obj.oid).contains o.oid)) ∧
      InMemoryQuerySet.count f + InMemoryQuerySet.count e =
        InMemoryQuerySet.count qs := by
  have he : InMemoryQuerySet.exclude qs kwargs = .ok
      { qs with
        elems := qs.elems.filter fun o => !((f.elems.map Obj.oid).contains o.oid),
        query := qs.query.clone } := by
    simp [InMemoryQuerySet.exclude, hf, Bind.bind, Except.bind, pure, Except.pure]
  refine ⟨_, he, rfl, ?_⟩
  obtain ⟨p, hp⟩ := filter_ok_shape qs kwargs f hf
  have hq : ∀ o ∈ qs.elems, ((f.elems.map Obj.oid).contains o.oid) = p o := by
    intro o ho
    rw [hp]
    by_cases hpo : p o = true
    · have : o ∈ qs.elems.filter p := List.mem_filter.mpr ⟨ho, hpo⟩
      simp only [hpo]
      rw [List.contains_iff_exists_mem_beq]
      exact ⟨o.oid, List.mem_map_of_mem Obj.oid this, by simp⟩
    · simp only [hpo]
      rw [Bool.eq_false_iff]
      intro hc
      rw [List.contains_iff_exists_mem_beq] at hc
      obtain ⟨x, hx, hbeq⟩ := hc
      obtain ⟨o2, ho2, rfl⟩ := List.mem_map.mp hx
      have ho2' := List.mem_filter.mp ho2
      have : o2 = o := hinj o2 ho2'.1 o ho (Eq.symm (by simpa using hbeq))
      subst this
      exact hpo ho2'.2
  simp only [InMemoryQuerySet.count]
  have hcongr : qs.elems.filter (fun o => !((f.elems.map Obj.oid).contains o.oid)) =
      qs.elems.filter (fun o => !(p o)) :=
    List.filter_congr fun o ho => by rw [hq o ho]
  rw [hcongr, hp]
  have := (List.filter_append_perm p qs.elems).length_eq
  rw [List.length_append] at this
  exact this

/-- Witness for C8 at a concrete queryset and `exact` lookup. -/
theorem C8_witness :
    ∃ e, InMemoryQuerySet.exclude qsW [Lookup.exact "name" (PyVal.str "Alpha")] =
        .ok e ∧
      e.elems = qsW.elems.filter (fun o =>
        !(((({ qsW with elems := [oA] } : InMemoryQuerySet).elems.map
          Obj.oid)).contains o.oid)) ∧
      InMemoryQuerySet.count ({ qsW with elems := [oA] } : InMemoryQuerySet) +
        InMemoryQuerySet.count e = InMemoryQuerySet.count qsW :=
  C8_filter_exclude_partition qsW [Lookup.exact "name" (PyVal.str "Alpha")]
    { qsW with elems := [oA] } (by decide) (by rfl)

/-- C3: constructing a `CachedQuerySet` with `data=None` and a given
`cache_key`, `cache_timeout` and cache backend: on a fresh cache entry
(`now - timestamp < cache_timeout`, strictly) the cached data becomes the
queryset's data, the backend is untouched and `fetch_func` is not invoked;
otherwise (entry missing or expired) `fetch_func` is invoked and, when it
returns `d`, `wrapFetch d` (a one-element list when `d` is not a list) is
stored under `cache_key` with the current time and becomes the queryset's
data. -/
theorem C3_cached_init_ttl (key : String) (timeout : Int)
    (backend : CacheBackend) (fetch : Option (Except String FetchResult))
    (now : Int) :
    (∀ cached ts, backend.lookup key = some (cached, ts) → now - ts < timeout →
      CachedQuerySet.init_data Option.none key timeout backend fetch now =
        (cached, backend, false)) ∧
    (∀ d, (∀ cached ts, backend.lookup key = some (cached, ts) →
        timeout ≤ now - ts) →
      fetch = some (.ok d) →
      CachedQuerySet.init_data Option.none key timeout backend fetch now =
        (wrapFetch d, backendSet backend key (wrapFetch d, now), true)) := by
  constructor
  · intro cached ts hl hfresh
    simp [CachedQuerySet.init_data, CachedQuerySet.get_cached_or_fetch, hl, hfresh]
  · intro d hstale hfetch
    cases hl : backend.lookup key with
    | none =>
      simp [CachedQuerySet.init_data, CachedQuerySet.get_cached_or_fetch, hl,
        hfetch, CachedQuerySet.tryFetch]
    | some v =>
      obtain ⟨cached, ts⟩ := v
      have hle : timeout ≤ now - ts := hstale cached ts hl
      simp [CachedQuerySet.init_data, CachedQuerySet.get_cached_or_fetch, hl,
        hfetch, CachedQuerySet.tryFetch, Int.not_lt.mpr hle]

def backendW : CacheBackend := [("k", ([oA], (5 : Int)))]

/-- Witness for C3: a fresh hit at time 6 (timeout 10), and an expired
fetch at time 20. -/
theorem C3_witness :
    CachedQuerySet.init_data Option.none "k" 10 backendW
        (some (.ok (FetchResult.list [oB]))) 6 = ([oA], backendW, false) ∧
    CachedQuerySet.init_data Option.none "k" 10 backendW
        (some (.ok (FetchResult.list [oB]))) 20 =
      (wrapFetch (FetchResult.list [oB]),
        backendSet backendW "k" (wrapFetch (FetchResult.list [oB]), 20), true) :=
  ⟨(C3_cached_init_ttl "k" 10 backendW (some (.ok (FetchResult.list [oB]))) 6).1
      [oA] 5 (by rfl) (by decide),
   (C3_cached_init_ttl "k" 10 backendW (some (.ok (FetchResult.list [oB]))) 20).2
      (FetchResult.list [oB])
      (by intro cached ts h; cases Option.some.inj h; decide) rfl⟩

/-- C9: when `fetch_func` raises, neither `CachedQuerySet` nor
`APIQuerySet` lets the exception escape: the previously cached data is
returned when a cached entry exists (otherwise `[]`), and the cache state —
the backend entry, respectively `_cache`/`_last_fetch` — is left exactly as
it was. -/
theorem C9_fetch_error_returns_cached_state_unchanged (key : String)
    (timeout : Int) (backend : CacheBackend) (now : Int) (e : String)
    (cache : Option (List Obj)) (last_fetch : Option Int) :
    ((CachedQuerySet.get_cached_or_fetch key timeout backend
        (some (.error e)) now).1 =
      (match backend.lookup key with
       | some (cd, _) => cd
       | Option.none => [])) ∧
    ((CachedQuerySet.get_cached_or_fetch key timeout backend
        (some (.error e)) now).2.1 = backend) ∧
    ((APIQuerySet.fetch_data cache last_fetch timeout
        (some (.error e)) now).1 = cache.getD []) ∧
    ((APIQuerySet.fetch_data cache last_fetch timeout
        (some (.error e)) now).2.1 = cache) ∧
    ((APIQuerySet.fetch_data cache last_fetch timeout
        (some (.error e)) now).2.2 = last_fetch) := by
  refine ⟨?_, ?_, ?_, ?_, ?_⟩ <;>
    first
      | (cases hl : backend.lookup key with
          | none =>
            simp [CachedQuerySet.get_cached_or_fetch, hl, CachedQuerySet.tryFetch]
          | some v =>
            obtain ⟨cd, ts⟩ := v
            by_cases hfresh : now - ts < timeout <;>
              simp [CachedQuerySet.get_cached_or_fetch, hl,
                CachedQuerySet.tryFetch, hfresh])
      | (cases cache with
          | none =>
            cases last_fetch <;>
              simp [APIQuerySet.fetch_data, APIQuerySet.api_try_fetch]
          | some c =>
            cases last_fetch with
            | none => simp [APIQuerySet.fetch_data, APIQuerySet.api_try_fetch]
            | some lf =>
              by_cases hfresh : now - lf < timeout <;>
                simp [APIQuerySet.fetch_data, APIQuerySet.api_try_fetch, hfresh])

/-- C7: `VirtualModel.save`/`delete` and `ReadOnlyVirtualModel.save`/
`delete` raise `NotImplementedError` for all arguments (they raise before
doing anything, so no write or state change happens). -/
theorem C7_virtual_models_raise_not_implemented
    (m : VirtualModel) (r : ReadOnlyVirtualModel)
    (args : List PyVal) (kwargs : List (String × PyVal)) :
    (∃ msg, VirtualModel.save m args kwargs =
      .error (.notImplementedError msg)) ∧
    (∃ msg, VirtualModel.delete m args kwargs =
      .error (.notImplementedError msg)) ∧
    (∃ msg, ReadOnlyVirtualModel.save r args kwargs =
      .error (.notImplementedError msg)) ∧
    (∃ msg, ReadOnlyVirtualModel.delete r args kwargs =
      .error (.notImplementedError msg)) :=
  ⟨⟨_, rfl⟩, ⟨_, rfl⟩, ⟨_, rfl⟩, ⟨_, rfl⟩⟩
